import Mathlib

/-!
Verification of the Medrix knowledge-graph construction engine.

The engine (backend knowledge-graph service) canonicalises clinical facts
into graph nodes, infers confidence-scored edges, deduplicates edges per
(source, target, type) triple, and computes summary statistics.  The
backend service module itself is not part of the source tree given here
(only its documentation and its frontend caller are), so the engine is
modelled from the specification; the frontend knowledge-graph page
(`applyFilter`, `fetchGraph`) is embedded from the source directly.
-/

set_option autoImplicit false

namespace Medrix

/-! Name normalisation -/

/-- Modelled from the spec: character class kept by `_normalise` in the
missing backend module `knowledge_graph_service.py` — letters, digits and
whitespace survive; punctuation is stripped. -/
def keepChar (c : Char) : Bool := c.isAlpha || c.isDigit || c.isWhitespace

/-- Split a character list into maximal whitespace-free words. -/
def splitWords : List Char → List Char → List (List Char)
  | [], acc => if acc.isEmpty then [] else [acc.reverse]
  | c :: rest, acc =>
    if c.isWhitespace then
      if acc.isEmpty then splitWords rest [] else acc.reverse :: splitWords rest []
    else splitWords rest (c :: acc)

/-- Join words with single spaces. -/
def joinWords : List (List Char) → List Char
  | [] => []
  | [w] => w
  | w :: ws => w ++ ' ' :: joinWords ws

/-- Modelled from the spec: `_normalise` of the missing backend module
`knowledge_graph_service.py` — lower-case, strip punctuation, collapse runs
of whitespace to one space, trim. -/
def normalise (s : String) : String :=
  String.mk (joinWords (splitWords ((s.data.map Char.toLower).filter keepChar) []))

/-! Data model -/

/-- Modelled from the spec: a clinical fact row as consumed by the engine
(the persistence models are not in the given source tree).  `severity` is
the nullable ordinal of the spec data model; `occurred_on` a day number;
`props` the type-specific attributes. -/
structure ClinicalFact where
  id : String
  document_id : String
  name : String
  occurred_on : Option Int
  severity : Option Nat
  props : List (String × String)
deriving DecidableEq

/-- Modelled from the spec: the engine-owned canonical GraphNode. -/
structure GraphNode where
  id : String
  label : String
  entity_type : String
  properties : List (String × String)
  source_documents : List String
  severity : Option Nat
  earliest_date : Option Int
deriving DecidableEq

/-- Modelled from the spec: the engine-owned GraphEdge. -/
structure GraphEdge where
  id : String
  source : String
  target : String
  type : String
  confidence : ℚ
  evidence : String
deriving DecidableEq

/-! Canonicalizer -/

/-- First occurrence of a key in an association list. -/
def lookupProp : List (String × String) → String → Option String
  | [], _ => none
  | p :: rest, k => if p.1 = k then some p.2 else lookupProp rest k

/-- Modelled from the spec: fill scalar properties only if currently
absent (first-seen wins for non-conflicting fields). -/
def fillProps (np fp : List (String × String)) : List (String × String) :=
  fp.foldl (fun acc kv => if acc.any (fun p => p.1 == kv.1) then acc else acc ++ [kv]) np

/-- Modelled from the spec: append a document id with set semantics. -/
def addDoc (docs : List String) (d : String) : List String :=
  if docs.contains d then docs else docs ++ [d]

/-- Modelled from the spec: severity promotion — replace the stored ordinal
only when the incoming one is strictly more severe. -/
def promoteSev (old new : Option Nat) : Option Nat :=
  match new with
  | none => old
  | some r =>
    match old with
    | none => some r
    | some o => if o < r then some r else some o

/-- Modelled from the spec: pull `earliest_date` backward to the oldest
seen date. -/
def pullEarliest (old new : Option Int) : Option Int :=
  match new with
  | none => old
  | some d =>
    match old with
    | none => some d
    | some o => if d < o then some d else some o

/-- Modelled from the spec: merge one further same-key fact into an
existing node (`_merge_conditions` and its per-type siblings in the missing
backend module). -/
def mergeFact (n : GraphNode) (f : ClinicalFact) : GraphNode :=
  { n with
    source_documents := addDoc n.source_documents f.document_id
    severity := promoteSev n.severity f.severity
    earliest_date := pullEarliest n.earliest_date f.occurred_on
    properties := fillProps n.properties f.props }

/-- Modelled from the spec: the node created on first occurrence of a
canonical key — label seeded from the first-seen (not normalised) name. -/
def freshNode (et nid : String) (f : ClinicalFact) : GraphNode :=
  { id := nid, label := f.name, entity_type := et, properties := f.props
    source_documents := [f.document_id], severity := f.severity
    earliest_date := f.occurred_on }

/-- Modelled from the spec: insert one fact into the accumulated node list.
A fact whose name normalises to the empty key is ineligible for merging and
is keyed by its source fact id instead; otherwise the fact merges into the
node of its canonical key, creating it if absent. -/
def insertFact (et : String) (acc : List GraphNode) (f : ClinicalFact) : List GraphNode :=
  let key := normalise f.name
  if key = "" then
    acc ++ [freshNode et (et ++ "::" ++ f.id) f]
  else
    let nid := et ++ "::" ++ key
    if acc.any (fun n => n.id == nid) then
      acc.map (fun n => if n.id == nid then mergeFact n f else n)
    else
      acc ++ [freshNode et nid f]

/-- Modelled from the spec: the Canonicalizer for one entity type
(`_merge_conditions`, `_merge_medications`, ... of the missing backend
module), producing nodes in creation order. -/
def canonicalise (et : String) (facts : List ClinicalFact) : List GraphNode :=
  facts.foldl (insertFact et) []

/-! Edge Resolver -/

/-- The dedup key of an edge. -/
def tripleKey (e : GraphEdge) : String × String × String := (e.source, e.target, e.type)

/-- Modelled from the spec: process one raw edge against the resolved
accumulator — keep the stored edge unless the incoming one has strictly
higher confidence (so the earliest edge wins exact ties). -/
def updEdge (acc : List GraphEdge) (e : GraphEdge) : List GraphEdge :=
  if acc.any (fun a => tripleKey a == tripleKey e) then
    acc.map (fun a => if tripleKey a == tripleKey e && a.confidence < e.confidence then e else a)
  else
    acc ++ [e]

/-- Modelled from the spec: `_dedup_edges` of the missing backend module —
at most one edge per (source, target, type) triple, highest confidence
retained, first-encountered wins ties, output ordered by first occurrence
of each triple. -/
def dedupEdges (es : List GraphEdge) : List GraphEdge :=
  es.foldl updEdge []

/-- Written from the spec wording of the Edge Resolver contract, for
refinement against `dedupEdges`: among the edges of one triple, retain the
one with the highest confidence, the earliest on an exact tie. -/
def firstMax : List GraphEdge → Option GraphEdge
  | [] => none
  | e :: rest =>
    match firstMax rest with
    | none => some e
    | some m => if e.confidence < m.confidence then some m else some e

/-- Maximum confidence of a non-empty edge list (0 when empty). -/
def maxConf : List GraphEdge → ℚ
  | [] => 0
  | [e] => e.confidence
  | e :: rest => max e.confidence (maxConf rest)

/-- Running first-max accumulator used to relate `dedupEdges` with
`firstMax`. -/
def mergeOne (o : Option GraphEdge) (l : List GraphEdge) : Option GraphEdge :=
  l.foldl (fun o e =>
    match o with
    | none => some e
    | some x => some (if x.confidence < e.confidence then e else x)) o

/-! Relationship Inferencer -/

/-- Modelled from the spec: the static ontology lookup tables are immutable
configuration passed into the Inferencer. -/
structure OntologyTables where
  medication_treats : List (String × List String)
  lab_monitors : List (String × List String)
  contraindications : List (String × List String)

/-- Association-list lookup used for the ontology tables. -/
def lookupTable : List (String × List String) → String → Option (List String)
  | [], _ => none
  | p :: rest, k => if p.1 = k then some p.2 else lookupTable rest k

/-- Edge id format of the spec data model. -/
def edgeId (ty src tgt : String) : String := ty ++ "::" ++ src ++ "::" ++ tgt

/-- Modelled from the spec: ontology lookup between one medication node and
one condition node — `prescribed_for` at 0.95 when the recorded indication
matches the condition, else `treats_for` at 0.90. -/
def ontologyPair (tbl : OntologyTables) (m c : GraphNode) : Option GraphEdge :=
  match lookupTable tbl.medication_treats (normalise m.label) with
  | none => none
  | some targets =>
    if targets.contains (normalise c.label) then
      match lookupProp m.properties "indication" with
      | some ind =>
        if normalise ind = normalise c.label then
          some { id := edgeId "prescribed_for" m.id c.id, source := m.id, target := c.id
                 type := "prescribed_for", confidence := 95/100
                 evidence := "Clinical ontology: " ++ m.label ++ " is indicated for " ++ c.label }
        else
          some { id := edgeId "treats_for" m.id c.id, source := m.id, target := c.id
                 type := "treats_for", confidence := 90/100
                 evidence := "Clinical ontology: " ++ m.label ++ " treats " ++ c.label }
      | none =>
        some { id := edgeId "treats_for" m.id c.id, source := m.id, target := c.id
               type := "treats_for", confidence := 90/100
               evidence := "Clinical ontology: " ++ m.label ++ " treats " ++ c.label }
    else none

/-- Modelled from the spec: medication-to-condition ontology edges. -/
def ontologyMedEdges (tbl : OntologyTables) (meds conds : List GraphNode) : List GraphEdge :=
  meds.flatMap fun m => conds.filterMap fun c => ontologyPair tbl m c

/-- Modelled from the spec: lab-to-condition `monitors` edges via the
`lab_monitors` table. -/
def labMonitorEdges (tbl : OntologyTables) (labs conds : List GraphNode) : List GraphEdge :=
  labs.flatMap fun l => conds.filterMap fun c =>
    match lookupTable tbl.lab_monitors (normalise l.label) with
    | none => none
    | some targets =>
      if targets.contains (normalise c.label) then
        some { id := edgeId "monitors" l.id c.id, source := l.id, target := c.id
               type := "monitors", confidence := 90/100
               evidence := "Clinical ontology: " ++ l.label ++ " monitors " ++ c.label }
      else none

/-- The edge built by the temporal co-occurrence rule for a given day gap. -/
def mkTemporalEdge (m c : GraphNode) (gap : Int) : GraphEdge :=
  { id := edgeId "treats_for" m.id c.id, source := m.id, target := c.id
    type := "treats_for", confidence := 7/10
    evidence := "Temporal: " ++ m.label ++ " started " ++ toString gap ++
      " days after " ++ c.label ++ " diagnosis" }

/-- Modelled from the spec: the temporal co-occurrence rule for one
(medication, condition) pair — a `treats_for` edge at confidence 0.70 when
the earliest start date of the medication falls within the 30-day window after
the diagnosis date of the condition; starting before diagnosis never qualifies. -/
def temporalPair (m c : GraphNode) : Option GraphEdge :=
  match m.earliest_date, c.earliest_date with
  | some dm, some dc =>
    if 0 ≤ dm - dc ∧ dm - dc ≤ 30 then some (mkTemporalEdge m c (dm - dc)) else none
  | _, _ => none

/-- Modelled from the spec: temporal edges over all (medication, condition)
pairs not already connected by an ontology edge. -/
def temporalEdges (meds conds : List GraphNode) (ont : List GraphEdge) : List GraphEdge :=
  meds.flatMap fun m => conds.filterMap fun c =>
    if ont.any (fun e => e.source == m.id && e.target == c.id) then none
    else temporalPair m c

/-- Modelled from the spec: `abnormal_indicates` from an abnormal-flagged
lab node to a condition its monitored-condition list includes. -/
def abnormalEdges (tbl : OntologyTables) (labs conds : List GraphNode) : List GraphEdge :=
  labs.flatMap fun l => conds.filterMap fun c =>
    if lookupProp l.properties "is_abnormal" = some "true" then
      match lookupTable tbl.lab_monitors (normalise l.label) with
      | none => none
      | some targets =>
        if targets.contains (normalise c.label) then
          some { id := edgeId "abnormal_indicates" l.id c.id, source := l.id, target := c.id
                 type := "abnormal_indicates", confidence := 85/100
                 evidence := "Abnormal " ++ l.label ++ " may indicate " ++ c.label }
        else none
    else none

/-- Modelled from the spec: `procedure_for` when the recorded procedure
indication matches the label of the condition. -/
def procedureEdges (procs conds : List GraphNode) : List GraphEdge :=
  procs.flatMap fun p => conds.filterMap fun c =>
    match lookupProp p.properties "indication" with
    | some ind =>
      if normalise ind = normalise c.label then
        some { id := edgeId "procedure_for" p.id c.id, source := p.id, target := c.id
               type := "procedure_for", confidence := 85/100
               evidence := "Procedure " ++ p.label ++ " performed for " ++ c.label }
      else none
    | none => none

/-- Modelled from the spec: `contraindicated_with` from a medication to an
allergy or condition node listed in the static contraindication table. -/
def contraEdges (tbl : OntologyTables) (meds others : List GraphNode) : List GraphEdge :=
  meds.flatMap fun m => others.filterMap fun o =>
    match lookupTable tbl.contraindications (normalise m.label) with
    | none => none
    | some targets =>
      if targets.contains (normalise o.label) then
        some { id := edgeId "contraindicated_with" m.id o.id, source := m.id, target := o.id
               type := "contraindicated_with", confidence := 90/100
               evidence := m.label ++ " is contraindicated with " ++ o.label }
      else none

/-- Modelled from the spec: `serial_monitoring` between lab nodes of the
identical test name from different source documents, when three or more
same-test observations exist. -/
def serialEdges (labs : List GraphNode) : List GraphEdge :=
  labs.flatMap fun a => labs.filterMap fun b =>
    if a.id ≠ b.id ∧ normalise a.label = normalise b.label ∧
        a.source_documents ≠ b.source_documents ∧
        3 ≤ (labs.filter (fun x => normalise x.label == normalise a.label)).length then
      some { id := edgeId "serial_monitoring" a.id b.id, source := a.id, target := b.id
             type := "serial_monitoring", confidence := 80/100
             evidence := "Repeated " ++ a.label ++ " observations over time" }
    else none

/-- Modelled from the spec: document co-occurrence — a `co_occurs_with`
edge at confidence 0.50 between nodes of different types sharing a source
document with no higher-strategy edge between them. -/
def coOccurEdges (nodes : List GraphNode) (known : List GraphEdge) : List GraphEdge :=
  nodes.flatMap fun a => nodes.filterMap fun b =>
    if a.id ≠ b.id ∧ a.entity_type ≠ b.entity_type ∧
        a.source_documents.any (fun d => b.source_documents.contains d) ∧
        ¬ known.any (fun e => e.source == a.id && e.target == b.id) then
      some { id := edgeId "co_occurs_with" a.id b.id, source := a.id, target := b.id
             type := "co_occurs_with", confidence := 5/10
             evidence := "Co-occur in a shared source document" }
    else none

/-- Modelled from the spec: `_build_edges` of the missing backend module —
the three strategies in priority order plus the additional fixed edge
rules, emitted pre-deduplication. -/
def buildEdges (tbl : OntologyTables) (meds conds labs procs allergies : List GraphNode) :
    List GraphEdge :=
  let ont := ontologyMedEdges tbl meds conds ++ labMonitorEdges tbl labs conds
  let known := ont ++ temporalEdges meds conds ont ++ abnormalEdges tbl labs conds ++
    procedureEdges procs conds ++ contraEdges tbl meds (conds ++ allergies) ++
    serialEdges labs
  known ++ coOccurEdges (meds ++ conds ++ labs ++ procs ++ allergies) known

/-! Graph Summarizer -/

/-- Modelled from the spec: the statistics block. -/
structure KGStatsR where
  total_nodes : Nat
  total_edges : Nat
  node_types : List (String × Nat)
  relationship_types : List (String × Nat)
  avg_confidence : ℚ
  high_confidence : Nat
deriving DecidableEq

/-- Bump a frequency counter keyed by string, preserving first-seen key
order (dictionary update semantics). -/
def bumpCount : List (String × Nat) → String → List (String × Nat)
  | [], k => [(k, 1)]
  | p :: rest, k => if p.1 = k then (p.1, p.2 + 1) :: rest else p :: bumpCount rest k

/-- Frequency counts of a key list. -/
def countBy (keys : List String) : List (String × Nat) :=
  keys.foldl bumpCount []

/-- Sum of edge confidences. -/
def sumConf : List GraphEdge → ℚ
  | [] => 0
  | e :: rest => e.confidence + sumConf rest

/-- Modelled from the spec: `_compute_stats` of the missing backend module —
frequency counts by type, arithmetic-mean confidence (0 for an edgeless
graph), and the count of edges with confidence at least 0.8. -/
def computeStats (nodes : List GraphNode) (edges : List GraphEdge) : KGStatsR :=
  { total_nodes := nodes.length
    total_edges := edges.length
    node_types := countBy (nodes.map (fun n => n.entity_type))
    relationship_types := countBy (edges.map (fun e => e.type))
    avg_confidence := if edges.isEmpty then 0 else sumConf edges / edges.length
    high_confidence := (edges.filter (fun e => 8/10 ≤ e.confidence)).length }

/-- Append an id under a cluster key, creating the key on first sight. -/
def addCluster : List (String × List String) → String → String → List (String × List String)
  | [], et, nid => [(et, [nid])]
  | p :: rest, et, nid =>
    if p.1 = et then (p.1, p.2 ++ [nid]) :: rest else p :: addCluster rest et nid

/-- Modelled from the spec: `_build_clusters` of the missing backend module —
node ids grouped by entity type, creation order preserved. -/
def buildClusters (nodes : List GraphNode) : List (String × List String) :=
  nodes.foldl (fun acc n => addCluster acc n.entity_type n.id) []

/-! Graph Assembler -/

/-- Modelled from the spec: the final payload; `message` is set exactly for
an empty graph. -/
structure Payload where
  nodes : List GraphNode
  edges : List GraphEdge
  statistics : KGStatsR
  clusters : List (String × List String)
  message : Option String
deriving DecidableEq

/-- Modelled from the spec: the five per-type fact sequences returned by
the Entity Loader. -/
structure FactSets where
  conditions : List ClinicalFact
  medications : List ClinicalFact
  labs : List ClinicalFact
  procedures : List ClinicalFact
  allergies : List ClinicalFact
deriving DecidableEq

/-- Modelled from the spec: the in-memory stages of `build_graph` of the
missing backend module — canonicalise, infer, resolve, summarise; a
human-readable message is attached exactly when the node list is empty. -/
def assembleGraph (tbl : OntologyTables) (fs : FactSets) : Payload :=
  let conds := canonicalise "condition" fs.conditions
  let meds := canonicalise "medication" fs.medications
  let labs := canonicalise "lab_result" fs.labs
  let procs := canonicalise "procedure" fs.procedures
  let allergies := canonicalise "allergy" fs.allergies
  let nodes := conds ++ meds ++ labs ++ procs ++ allergies
  let edges := dedupEdges (buildEdges tbl meds conds labs procs allergies)
  { nodes := nodes
    edges := edges
    statistics := computeStats nodes edges
    clusters := buildClusters nodes
    message := if nodes.isEmpty then
        some "No clinical entities were found for this patient. Upload and process medical documents to build the knowledge graph."
      else none }

/-- Modelled from the spec: the whole build — a data-access failure during
loading is the sole fatal condition; once the fact sets are in memory the
assembly is a total function. -/
def buildGraph (tbl : OntologyTables) (loaded : Except String FactSets) :
    Except String Payload :=
  match loaded with
  | .error e => .error e
  | .ok fs => .ok (assembleGraph tbl fs)

/-- Modelled from the spec: the Assembler state machine. -/
inductive BuildState where
  | loading
  | canonicalizing
  | inferring
  | resolving
  | summarizing
  | done
  | failed
deriving DecidableEq

/-- Modelled from the spec: the transition structure of the Assembler state
machine — a single FAILED absorbing state reachable from LOADING only. -/
def nextStates : BuildState → List BuildState
  | .loading => [.canonicalizing, .failed]
  | .canonicalizing => [.inferring]
  | .inferring => [.resolving]
  | .resolving => [.summarizing]
  | .summarizing => [.done]
  | .done => []
  | .failed => []

/-! Frontend knowledge-graph page (embedded from the source) -/

/-- The `KGNode` interface of the knowledge-graph page. -/
structure KGNodeT where
  id : String
  label : String
  type : String
  properties : List (String × String)
  source_documents : List String
  earliest_date : Option String
deriving DecidableEq

/-- The `KGEdge` interface of the knowledge-graph page. -/
structure KGEdgeT where
  id : String
  source : String
  target : String
  type : String
  confidence : ℚ
  evidence : String
deriving DecidableEq

/-- The visible-node-id set computed by `applyFilter` of the
knowledge-graph page: all node ids for the "all" filter, otherwise the ids
of the nodes of the filtered type. -/
def visibleIds (filter : String) (nodes : List KGNodeT) : List String :=
  if filter == "all" then nodes.map (fun n => n.id)
  else (nodes.filter (fun n => n.type == filter)).map (fun n => n.id)

/-- The edge selection of `applyFilter` of the knowledge-graph page: drop
self-loops always, and under a single-type filter also require both
endpoints visible. -/
def applyFilterEdges (filter : String) (nodes : List KGNodeT) (edges : List KGEdgeT) :
    List KGEdgeT :=
  let visible := visibleIds filter nodes
  edges.filter fun e =>
    if filter == "all" then e.source != e.target
    else visible.contains e.source && visible.contains e.target && e.source != e.target

/-- The empty-graph branch of `fetchGraph` of the knowledge-graph page:
when the payload has no nodes, the page shows the payload message (with a
fallback text) instead of rendering, without treating the response as a
fetch failure. -/
def fetchGraphDisplay (nodes : List KGNodeT) (message : Option String) : Option String :=
  if nodes.length = 0 then
    some (message.getD "No clinical entities found. Upload and process medical documents to build your knowledge graph.")
  else none

/-! Proof-support definitions -/

/-- The edges of one dedup triple, in emission order. -/
def filterTriple (t : String × String × String) (l : List GraphEdge) : List GraphEdge :=
  l.filter (fun a => tripleKey a == t)

/-- The nodes carrying one node id, in creation order. -/
def filterId (nid : String) (l : List GraphNode) : List GraphNode :=
  l.filter (fun n => n.id == nid)

/-- The running state of the Canonicalizer at one non-empty canonical key:
the first same-key fact creates the node, later ones merge into it. -/
def mergeRun (et key : String) (o : Option GraphNode) (fs : List ClinicalFact) :
    Option GraphNode :=
  fs.foldl (fun o f =>
    match o with
    | none => some (freshNode et (et ++ "::" ++ key) f)
    | some n => some (mergeFact n f)) o

/-- Total count held by a frequency table. -/
def sumCounts (l : List (String × Nat)) : Nat :=
  (l.map (fun p => p.2)).sum

/-- Equality of graph nodes under the spec data model: `properties` is a
mapping (lookup equality) and `source_documents` a set (membership
equality); the remaining fields are scalars. -/
def nodeEquiv (a b : GraphNode) : Prop :=
  a.id = b.id ∧ a.label = b.label ∧ a.entity_type = b.entity_type ∧
  (∀ k, lookupProp a.properties k = lookupProp b.properties k) ∧
  (∀ d, d ∈ a.source_documents ↔ d ∈ b.source_documents) ∧
  a.severity = b.severity ∧ a.earliest_date = b.earliest_date

/-- Concrete node used to exercise merge commutativity: an existing
condition node with no recorded notes. -/
def cNode0 : GraphNode :=
  { id := "condition::hypertension", label := "Hypertension", entity_type := "condition"
    properties := [], source_documents := ["doc-0"], severity := some 1
    earliest_date := some 10 }

/-- Concrete fact A: same canonical key as `cNode0`, notes value "a". -/
def cFactA : ClinicalFact :=
  { id := "fa", document_id := "doc-1", name := "Hypertension"
    occurred_on := some 8, severity := some 2, props := [("notes", "a")] }

/-- Concrete fact B: same canonical key as `cNode0`, notes value "b". -/
def cFactB : ClinicalFact :=
  { id := "fb", document_id := "doc-2", name := "  hypertension!! "
    occurred_on := some 5, severity := some 3, props := [("notes", "b")] }

/-- Concrete fact C: same canonical key as `cFactA`, no conflicting
property keys with it. -/
def cFactC : ClinicalFact :=
  { id := "fc", document_id := "doc-3", name := "HYPERTENSION"
    occurred_on := some 3, severity := none, props := [("status", "active")] }

/-- Concrete unnamed fact: entirely-punctuation name. -/
def uFactA : ClinicalFact :=
  { id := "u1", document_id := "du1", name := "!!!"
    occurred_on := none, severity := none, props := [] }

/-- Concrete unnamed fact: empty name. -/
def uFactB : ClinicalFact :=
  { id := "u2", document_id := "du2", name := ""
    occurred_on := none, severity := none, props := [] }

/-- Concrete edge at confidence 0. -/
def wEdge1 : GraphEdge :=
  { id := "e1", source := "m", target := "c", type := "treats_for"
    confidence := 0, evidence := "a" }

/-- Concrete edge at confidence 1 on a different relationship type. -/
def wEdge2 : GraphEdge :=
  { id := "e2", source := "m", target := "c", type := "co_occurs_with"
    confidence := 1, evidence := "b" }

/-- Concrete medication node started on day 112. -/
def nMet : GraphNode :=
  { id := "medication::metformin", label := "Metformin", entity_type := "medication"
    properties := [], source_documents := ["d1"], severity := none
    earliest_date := some 112 }

/-- Concrete condition node diagnosed on day 100 — 12 days before the
medication start. -/
def nDia : GraphNode :=
  { id := "condition::diabetes", label := "Diabetes", entity_type := "condition"
    properties := [], source_documents := ["d2"], severity := none
    earliest_date := some 100 }

/-- Concrete frontend node of type medication. -/
def kNode1 : KGNodeT :=
  { id := "medication::a", label := "A", type := "medication"
    properties := [], source_documents := [], earliest_date := none }

/-- Concrete frontend node of type medication. -/
def kNode2 : KGNodeT :=
  { id := "medication::b", label := "B", type := "medication"
    properties := [], source_documents := [], earliest_date := none }

/-- Concrete frontend edge between the two medication nodes. -/
def kEdge1 : KGEdgeT :=
  { id := "x", source := "medication::a", target := "medication::b"
    type := "co_occurs_with", confidence := 1, evidence := "e" }

/-! General helper lemmas -/

theorem strAppend_assoc (a b c : String) : a ++ b ++ c = a ++ (b ++ c) := by
  apply String.ext
  simp [String.data_append]

theorem strAppend_left_cancel {s a b : String} (h : s ++ a = s ++ b) : a = b := by
  apply String.ext
  have hd := congrArg String.data h
  simp only [String.data_append] at hd
  exact List.append_cancel_left hd

/-! Edge Resolver lemmas -/

theorem filterTriple_nil (t : String × String × String) : filterTriple t [] = [] := rfl

theorem filterTriple_cons (t : String × String × String) (a : GraphEdge) (l : List GraphEdge) :
    filterTriple t (a :: l) =
      if tripleKey a = t then a :: filterTriple t l else filterTriple t l := by
  simp only [filterTriple, List.filter_cons]
  by_cases h : tripleKey a = t <;> simp [h]

theorem filterTriple_append (t : String × String × String) (l₁ l₂ : List GraphEdge) :
    filterTriple t (l₁ ++ l₂) = filterTriple t l₁ ++ filterTriple t l₂ :=
  List.filter_append l₁ l₂

theorem mem_filterTriple {t : String × String × String} {a : GraphEdge} {l : List GraphEdge} :
    a ∈ filterTriple t l ↔ a ∈ l ∧ tripleKey a = t := by
  simp [filterTriple, List.mem_filter]

theorem mergeOne_nil (o : Option GraphEdge) : mergeOne o [] = o := rfl

theorem mergeOne_cons_none (e : GraphEdge) (l : List GraphEdge) :
    mergeOne none (e :: l) = mergeOne (some e) l := rfl

theorem mergeOne_cons_some (x e : GraphEdge) (l : List GraphEdge) :
    mergeOne (some x) (e :: l) =
      mergeOne (some (if x.confidence < e.confidence then e else x)) l := rfl

theorem firstMax_cons (e : GraphEdge) (l : List GraphEdge) :
    firstMax (e :: l) =
      match firstMax l with
      | none => some e
      | some m => if e.confidence < m.confidence then some m else some e := rfl

theorem firstMax_cons_ne_none (e : GraphEdge) (l : List GraphEdge) :
    firstMax (e :: l) ≠ none := by
  cases h : firstMax l <;> simp [firstMax, h] <;> split <;> simp

theorem mergeOne_some_eq_firstMax (l : List GraphEdge) :
    ∀ x, mergeOne (some x) l = firstMax (x :: l) := by
  induction l with
  | nil => intro x; rfl
  | cons e rest ih =>
    intro x
    rw [mergeOne_cons_some, ih]
    cases h : firstMax rest with
    | none =>
      by_cases hxe : x.confidence < e.confidence <;> simp [firstMax, h, hxe]
    | some m =>
      by_cases hxe : x.confidence < e.confidence
      · by_cases hem : e.confidence < m.confidence
        · simp [firstMax, h, hxe, hem, lt_trans hxe hem]
        · simp [firstMax, h, hxe, hem]
      · by_cases hem : e.confidence < m.confidence
        · simp [firstMax, h, hxe, hem]
        · have hxm : ¬ x.confidence < m.confidence := fun hx =>
            hxe (lt_of_lt_of_le hx (le_of_not_lt hem))
          simp [firstMax, h, hxe, hem, hxm]

theorem mergeOne_none_eq_firstMax (l : List GraphEdge) : mergeOne none l = firstMax l := by
  cases l with
  | nil => rfl
  | cons e rest => rw [mergeOne_cons_none, mergeOne_some_eq_firstMax]

theorem updEdge_map_body (e a : GraphEdge) :
    (if tripleKey a == tripleKey e && a.confidence < e.confidence then e else a) =
      (if tripleKey a = tripleKey e ∧ a.confidence < e.confidence then e else a) := by
  by_cases h : tripleKey a = tripleKey e ∧ a.confidence < e.confidence
  · simp [h.1, h.2]
  · rw [if_neg h]
    by_cases hk : tripleKey a = tripleKey e
    · have hc : ¬ a.confidence < e.confidence := fun hc => h ⟨hk, hc⟩
      simp [hk, hc]
    · simp [hk]

theorem filterTriple_updEdge_map (acc : List GraphEdge) (e : GraphEdge)
    (t : String × String × String) :
    filterTriple t
        (acc.map (fun a =>
          if tripleKey a == tripleKey e && a.confidence < e.confidence then e else a)) =
      if tripleKey e = t then
        (filterTriple t acc).map (fun a => if a.confidence < e.confidence then e else a)
      else filterTriple t acc := by
  unfold filterTriple
  rw [List.filter_map]
  have hpg : List.filter ((fun a => tripleKey a == t) ∘ fun a =>
      if tripleKey a == tripleKey e && a.confidence < e.confidence then e else a) acc
      = List.filter (fun a => tripleKey a == t) acc := by
    apply List.filter_congr
    intro x _
    simp only [Function.comp_apply]
    rw [updEdge_map_body]
    by_cases hP : tripleKey x = tripleKey e ∧ x.confidence < e.confidence
    · rw [if_pos hP]
      simp [hP.1]
    · rw [if_neg hP]
  rw [hpg]
  by_cases ht : tripleKey e = t
  · rw [if_pos ht]
    apply List.map_congr_left
    intro x hx
    rw [List.mem_filter] at hx
    have hxt : tripleKey x = t := by simpa using hx.2
    rw [updEdge_map_body]
    by_cases hlt : x.confidence < e.confidence
    · rw [if_pos ⟨hxt.trans ht.symm, hlt⟩, if_pos hlt]
    · rw [if_neg (fun h => hlt h.2), if_neg hlt]
  · rw [if_neg ht]
    have hid : ∀ x ∈ List.filter (fun a => tripleKey a == t) acc,
        (if tripleKey x == tripleKey e && x.confidence < e.confidence then e else x) = x := by
      intro x hx
      rw [List.mem_filter] at hx
      have hxt : tripleKey x = t := by simpa using hx.2
      rw [updEdge_map_body, if_neg (fun h => ht (h.1.symm.trans hxt))]
    rw [List.map_congr_left hid]
    simp

theorem filterTriple_updEdge_ne (acc : List GraphEdge) (e : GraphEdge)
    (t : String × String × String) (h : tripleKey e ≠ t) :
    filterTriple t (updEdge acc e) = filterTriple t acc := by
  unfold updEdge
  split
  · rw [filterTriple_updEdge_map, if_neg h]
  · rw [filterTriple_append, filterTriple_cons, if_neg h, filterTriple_nil, List.append_nil]

theorem filterTriple_updEdge_self_nil (acc : List GraphEdge) (e : GraphEdge)
    (h : filterTriple (tripleKey e) acc = []) :
    filterTriple (tripleKey e) (updEdge acc e) = [e] := by
  have hany : (acc.any fun a => tripleKey a == tripleKey e) = false := by
    rw [List.any_eq_false]
    intro x hx
    simp only [beq_iff_eq]
    intro hk
    have : x ∈ filterTriple (tripleKey e) acc := mem_filterTriple.mpr ⟨hx, hk⟩
    rw [h] at this
    exact absurd this (List.not_mem_nil x)
  unfold updEdge
  rw [if_neg (by simp [hany]), filterTriple_append, h, filterTriple_cons,
    if_pos rfl, filterTriple_nil]
  rfl

theorem filterTriple_updEdge_self_cons (acc : List GraphEdge) (e x : GraphEdge)
    (l : List GraphEdge) (h : filterTriple (tripleKey e) acc = x :: l) :
    filterTriple (tripleKey e) (updEdge acc e) =
      (x :: l).map (fun a => if a.confidence < e.confidence then e else a) := by
  have hx : x ∈ filterTriple (tripleKey e) acc := by rw [h]; exact List.mem_cons_self x l
  obtain ⟨hmem, hkey⟩ := mem_filterTriple.mp hx
  have hany : (acc.any fun a => tripleKey a == tripleKey e) = true := by
    rw [List.any_eq_true]
    exact ⟨x, hmem, by simp [hkey]⟩
  unfold updEdge
  rw [if_pos (by simp [hany]), filterTriple_updEdge_map, if_pos rfl, h]

theorem updEdge_inv (acc : List GraphEdge) (e : GraphEdge)
    (hinv : ∀ u, (filterTriple u acc).length ≤ 1) :
    ∀ u, (filterTriple u (updEdge acc e)).length ≤ 1 := by
  intro u
  by_cases hu : tripleKey e = u
  · subst hu
    have := hinv (tripleKey e)
    match h : filterTriple (tripleKey e) acc with
    | [] => rw [filterTriple_updEdge_self_nil acc e h]; simp
    | [x] => rw [filterTriple_updEdge_self_cons acc e x [] h]; simp
    | x :: y :: rest => rw [h] at this; simp at this
  · rw [filterTriple_updEdge_ne acc e u hu]
    exact hinv u

theorem filterTriple_foldl (es : List GraphEdge) :
    ∀ acc : List GraphEdge, (∀ u, (filterTriple u acc).length ≤ 1) →
    ∀ t, filterTriple t (es.foldl updEdge acc)
      = (mergeOne (filterTriple t acc).head? (filterTriple t es)).toList := by
  induction es with
  | nil =>
    intro acc hinv t
    have := hinv t
    match h : filterTriple t acc with
    | [] => simp [List.foldl_nil, h, filterTriple_nil, mergeOne_nil]
    | [x] => simp [List.foldl_nil, h, filterTriple_nil, mergeOne_nil]
    | x :: y :: rest => rw [h] at this; simp at this
  | cons e es ih =>
    intro acc hinv t
    rw [List.foldl_cons, ih (updEdge acc e) (updEdge_inv acc e hinv) t, filterTriple_cons]
    by_cases ht : tripleKey e = t
    · subst ht
      rw [if_pos rfl]
      have := hinv (tripleKey e)
      match h : filterTriple (tripleKey e) acc with
      | [] =>
        rw [filterTriple_updEdge_self_nil acc e h]
        simp [mergeOne_cons_none]
      | [x] =>
        rw [filterTriple_updEdge_self_cons acc e x [] h]
        simp [mergeOne_cons_some]
      | x :: y :: rest => rw [h] at this; simp at this
    · rw [if_neg ht, filterTriple_updEdge_ne acc e t ht]

theorem filterTriple_dedupEdges (es : List GraphEdge) (t : String × String × String) :
    filterTriple t (dedupEdges es) = (firstMax (filterTriple t es)).toList := by
  have h := filterTriple_foldl es [] (by intro u; simp [filterTriple_nil]) t
  rw [dedupEdges] at *
  rw [h, filterTriple_nil]
  simp [mergeOne_none_eq_firstMax]

theorem firstMax_conf (l : List GraphEdge) :
    ∀ m, firstMax l = some m → m.confidence = maxConf l := by
  induction l with
  | nil => intro m h; exact absurd h (by simp [firstMax])
  | cons e rest ih =>
    intro m h
    cases hr : firstMax rest with
    | none =>
      cases rest with
      | nil =>
        rw [firstMax_cons] at h
        simp only [firstMax] at h
        cases h
        simp [maxConf]
      | cons r rs => exact absurd hr (firstMax_cons_ne_none r rs)
    | some mr =>
      cases rest with
      | nil => simp [firstMax] at hr
      | cons r rs =>
        have hmr := ih mr hr
        rw [firstMax_cons, hr] at h
        simp only [] at h
        split_ifs at h with hlt
        · cases h
          simp only [maxConf]
          rw [max_eq_right (le_of_lt (hmr ▸ hlt))]
          exact hmr
        · cases h
          simp only [maxConf]
          rw [max_eq_left (hmr ▸ le_of_not_lt hlt)]

theorem firstMax_eq_find (l : List GraphEdge) :
    firstMax l = l.find? (fun e => decide (e.confidence = maxConf l)) := by
  induction l with
  | nil => rfl
  | cons e rest ih =>
    cases rest with
    | nil => simp [firstMax, maxConf, List.find?]
    | cons r rs =>
      obtain ⟨mr, hr⟩ : ∃ mr, firstMax (r :: rs) = some mr := by
        cases h : firstMax (r :: rs) with
        | none => exact absurd h (firstMax_cons_ne_none r rs)
        | some m => exact ⟨m, rfl⟩
      have hconf := firstMax_conf (r :: rs) mr hr
      by_cases hlt : e.confidence < mr.confidence
      · have hmax : maxConf (e :: r :: rs) = maxConf (r :: rs) := by
          simp only [maxConf]
          exact max_eq_right (le_of_lt (hconf ▸ hlt))
        have hne : ¬ e.confidence = maxConf (e :: r :: rs) := by
          rw [hmax, ← hconf]
          exact ne_of_lt hlt
        have h1 : firstMax (e :: r :: rs) = some mr := by
          rw [firstMax_cons, hr]
          simp [hlt]
        rw [h1, List.find?_cons_of_neg _ (by simpa using hne)]
        simp only [hmax]
        rw [← ih, hr]
      · have hmax : maxConf (e :: r :: rs) = e.confidence := by
          simp only [maxConf]
          exact max_eq_left (hconf ▸ le_of_not_lt hlt)
        have h1 : firstMax (e :: r :: rs) = some e := by
          rw [firstMax_cons, hr]
          simp [hlt]
        rw [h1, List.find?_cons_of_pos _ (by simp [hmax])]

theorem foldl_updEdge_of_distinct (es : List GraphEdge) :
    ∀ acc, (∀ u, (filterTriple u (acc ++ es)).length ≤ 1) →
      es.foldl updEdge acc = acc ++ es := by
  induction es with
  | nil => intro acc _; simp
  | cons e es ih =>
    intro acc h
    have hany : (acc.any fun a => tripleKey a == tripleKey e) = false := by
      rw [List.any_eq_false]
      intro x hx
      simp only [beq_iff_eq]
      intro hk
      have h1 := h (tripleKey e)
      rw [filterTriple_append, filterTriple_cons, if_pos rfl] at h1
      have hxm : x ∈ filterTriple (tripleKey e) acc := mem_filterTriple.mpr ⟨hx, hk⟩
      have : 1 ≤ (filterTriple (tripleKey e) acc).length :=
        List.length_pos.mpr (List.ne_nil_of_mem hxm)
      simp only [List.length_append, List.length_cons] at h1
      omega
    rw [List.foldl_cons]
    have hupd : updEdge acc e = acc ++ [e] := by
      unfold updEdge
      rw [if_neg (by simp [hany])]
    rw [hupd, ih (acc ++ [e]) (by simpa using h)]
    simp

/-- C2: for every raw edge sequence, the Edge Resolver keeps at most one
edge per (source, target, type) triple; whenever the triple has raw edges,
the confidence of the retained edge equals the maximum raw confidence for that
triple, and the retained edge is the first raw edge attaining that maximum
(the edge emitted earlier wins an exact tie). -/
theorem claim_c2_dedup_per_triple (es : List GraphEdge) (t : String × String × String) :
    (filterTriple t (dedupEdges es)).length ≤ 1 ∧
    (filterTriple t es ≠ [] →
      ∃ e, filterTriple t (dedupEdges es) = [e] ∧
        e.confidence = maxConf (filterTriple t es) ∧
        (filterTriple t es).find?
          (fun x => decide (x.confidence = maxConf (filterTriple t es))) = some e) := by
  constructor
  · rw [filterTriple_dedupEdges]
    cases firstMax (filterTriple t es) <;> simp
  · intro hne
    obtain ⟨m, hm⟩ : ∃ m, firstMax (filterTriple t es) = some m := by
      cases hl : filterTriple t es with
      | nil => exact absurd hl hne
      | cons a l =>
        cases h : firstMax (a :: l) with
        | none => exact absurd h (firstMax_cons_ne_none a l)
        | some m => exact ⟨m, rfl⟩
    refine ⟨m, ?_, firstMax_conf _ m hm, by rw [← firstMax_eq_find, hm]⟩
    rw [filterTriple_dedupEdges, hm]
    rfl

/-- C2 witness: two raw edges on the same triple at confidences 0.5 and
0.9; the resolver keeps exactly the 0.9 edge. -/
theorem claim_c2_witness :
    filterTriple ("m", "c", "treats_for")
        [{ id := "e1", source := "m", target := "c", type := "treats_for",
           confidence := 5/10, evidence := "a" },
         { id := "e2", source := "m", target := "c", type := "treats_for",
           confidence := 9/10, evidence := "b" }] ≠ [] ∧
    ∃ e, filterTriple ("m", "c", "treats_for")
        (dedupEdges
          [{ id := "e1", source := "m", target := "c", type := "treats_for",
             confidence := 5/10, evidence := "a" },
           { id := "e2", source := "m", target := "c", type := "treats_for",
             confidence := 9/10, evidence := "b" }]) = [e] ∧
      e.confidence = maxConf (filterTriple ("m", "c", "treats_for")
        [{ id := "e1", source := "m", target := "c", type := "treats_for",
           confidence := 5/10, evidence := "a" },
         { id := "e2", source := "m", target := "c", type := "treats_for",
           confidence := 9/10, evidence := "b" }]) ∧
      (filterTriple ("m", "c", "treats_for")
        [{ id := "e1", source := "m", target := "c", type := "treats_for",
           confidence := 5/10, evidence := "a" },
         { id := "e2", source := "m", target := "c", type := "treats_for",
           confidence := 9/10, evidence := "b" }]).find?
        (fun x => decide (x.confidence = maxConf (filterTriple ("m", "c", "treats_for")
          [{ id := "e1", source := "m", target := "c", type := "treats_for",
             confidence := 5/10, evidence := "a" },
           { id := "e2", source := "m", target := "c", type := "treats_for",
             confidence := 9/10, evidence := "b" }]))) = some e :=
  ⟨by decide,
    (claim_c2_dedup_per_triple
      [{ id := "e1", source := "m", target := "c", type := "treats_for",
         confidence := 5/10, evidence := "a" },
       { id := "e2", source := "m", target := "c", type := "treats_for",
         confidence := 9/10, evidence := "b" }] ("m", "c", "treats_for")).2 (by decide)⟩

/-- C3: the Edge Resolver is idempotent — applying it to its own output
returns that output unchanged, same edges in the same order. -/
theorem claim_c3_dedup_idempotent (es : List GraphEdge) :
    dedupEdges (dedupEdges es) = dedupEdges es := by
  have hd : ∀ u, (filterTriple u (dedupEdges es)).length ≤ 1 := by
    intro u
    rw [filterTriple_dedupEdges]
    cases firstMax (filterTriple u es) <;> simp
  have h := foldl_updEdge_of_distinct (dedupEdges es) [] (by simpa using hd)
  calc dedupEdges (dedupEdges es) = (dedupEdges es).foldl updEdge [] := rfl
    _ = [] ++ dedupEdges es := h
    _ = dedupEdges es := by simp

/-! Canonicalizer lemmas -/

theorem nodeId_inj {et a b : String} (h : et ++ "::" ++ a = et ++ "::" ++ b) : a = b :=
  strAppend_left_cancel h

theorem mergeFact_id (n : GraphNode) (f : ClinicalFact) : (mergeFact n f).id = n.id := rfl

theorem filterId_nil (nid : String) : filterId nid [] = [] := rfl

theorem filterId_cons (nid : String) (a : GraphNode) (l : List GraphNode) :
    filterId nid (a :: l) = if a.id = nid then a :: filterId nid l else filterId nid l := by
  simp only [filterId, List.filter_cons]
  by_cases h : a.id = nid <;> simp [h]

theorem filterId_append (nid : String) (l₁ l₂ : List GraphNode) :
    filterId nid (l₁ ++ l₂) = filterId nid l₁ ++ filterId nid l₂ :=
  List.filter_append l₁ l₂

theorem mem_filterId {nid : String} {a : GraphNode} {l : List GraphNode} :
    a ∈ filterId nid l ↔ a ∈ l ∧ a.id = nid := by
  simp [filterId, List.mem_filter]

theorem filterId_eq_nil_iff_any (nid : String) (acc : List GraphNode) :
    (acc.any fun n => n.id == nid) = false ↔ filterId nid acc = [] := by
  rw [List.any_eq_false]
  unfold filterId
  rw [List.filter_eq_nil_iff]

theorem freshNode_id (et nid : String) (f : ClinicalFact) :
    (freshNode et nid f).id = nid := rfl

theorem filterId_mergeMap (l : List GraphNode) (fc : ClinicalFact) (mid nid : String) :
    filterId nid (l.map (fun n => if n.id == mid then mergeFact n fc else n)) =
      if mid = nid then (filterId nid l).map (fun n => mergeFact n fc)
      else filterId nid l := by
  unfold filterId
  rw [List.filter_map]
  have hpg : List.filter ((fun n => n.id == nid) ∘ fun n =>
      if n.id == mid then mergeFact n fc else n) l
      = List.filter (fun n => n.id == nid) l := by
    apply List.filter_congr
    intro x _
    simp only [Function.comp_apply]
    by_cases h : x.id = mid
    · simp [h, mergeFact_id]
    · simp [h]
  rw [hpg]
  by_cases hm : mid = nid
  · rw [if_pos hm]
    apply List.map_congr_left
    intro x hx
    rw [List.mem_filter] at hx
    have hxn : x.id = nid := by simpa using hx.2
    rw [if_pos (by simp [hxn, hm])]
  · rw [if_neg hm]
    have hid : ∀ x ∈ List.filter (fun n => n.id == nid) l,
        (if x.id == mid then mergeFact x fc else x) = x := by
      intro x hx
      rw [List.mem_filter] at hx
      have hxn : x.id = nid := by simpa using hx.2
      rw [if_neg (by simp [hxn]; exact fun h => hm h.symm)]
    rw [List.map_congr_left hid]
    simp

theorem insertFact_unnamed (et : String) (acc : List GraphNode) (f : ClinicalFact)
    (h : normalise f.name = "") :
    insertFact et acc f = acc ++ [freshNode et (et ++ "::" ++ f.id) f] := by
  simp [insertFact, h]

theorem insertFact_named_new (et : String) (acc : List GraphNode) (f : ClinicalFact)
    (h : normalise f.name ≠ "")
    (hany : (acc.any fun n => n.id == et ++ "::" ++ normalise f.name) = false) :
    insertFact et acc f = acc ++ [freshNode et (et ++ "::" ++ normalise f.name) f] := by
  simp [insertFact, h, hany]

theorem insertFact_named_merge (et : String) (acc : List GraphNode) (f : ClinicalFact)
    (h : normalise f.name ≠ "")
    (hany : (acc.any fun n => n.id == et ++ "::" ++ normalise f.name) = true) :
    insertFact et acc f =
      acc.map (fun n =>
        if n.id == et ++ "::" ++ normalise f.name then mergeFact n f else n) := by
  simp [insertFact, h, hany]

theorem mergeRun_nil (et key : String) (o : Option GraphNode) : mergeRun et key o [] = o := rfl

theorem mergeRun_cons_none (et key : String) (f : ClinicalFact) (fs : List ClinicalFact) :
    mergeRun et key none (f :: fs) =
      mergeRun et key (some (freshNode et (et ++ "::" ++ key) f)) fs := rfl

theorem mergeRun_cons_some (et key : String) (n : GraphNode) (f : ClinicalFact)
    (fs : List ClinicalFact) :
    mergeRun et key (some n) (f :: fs) = mergeRun et key (some (mergeFact n f)) fs := rfl

theorem mergeRun_some_isSome (et key : String) (fs : List ClinicalFact) :
    ∀ n, ∃ m, mergeRun et key (some n) fs = some m := by
  induction fs with
  | nil => intro n; exact ⟨n, rfl⟩
  | cons f fs ih =>
    intro n
    rw [mergeRun_cons_some]
    exact ih (mergeFact n f)

theorem addDoc_mem {docs : List String} {d x : String} :
    x ∈ addDoc docs d ↔ x ∈ docs ∨ x = d := by
  unfold addDoc
  split
  next hc =>
    have hd : d ∈ docs := by simpa using hc
    constructor
    · exact fun hx => Or.inl hx
    · rintro (hx | rfl)
      · exact hx
      · exact hd
  next hc => simp

theorem addDoc_nodup {docs : List String} {d : String} (h : docs.Nodup) :
    (addDoc docs d).Nodup := by
  unfold addDoc
  split
  next => exact h
  next hc =>
    have hd : d ∉ docs := by simpa using hc
    rw [← List.concat_eq_append]
    exact List.Nodup.concat hd h

theorem mergeFact_docs_subset (n : GraphNode) (f : ClinicalFact) :
    ∀ d ∈ n.source_documents, d ∈ (mergeFact n f).source_documents := by
  intro d hd
  exact addDoc_mem.mpr (Or.inl hd)

theorem mergeFact_docs_self (n : GraphNode) (f : ClinicalFact) :
    f.document_id ∈ (mergeFact n f).source_documents :=
  addDoc_mem.mpr (Or.inr rfl)

theorem mergeRun_docs (et key : String) (fs : List ClinicalFact) :
    ∀ n m, mergeRun et key (some n) fs = some m →
      (∀ d ∈ n.source_documents, d ∈ m.source_documents) ∧
      (∀ x ∈ fs, x.document_id ∈ m.source_documents) := by
  induction fs with
  | nil =>
    intro n m h
    rw [mergeRun_nil] at h
    cases h
    exact ⟨fun d hd => hd, by simp⟩
  | cons f fs ih =>
    intro n m h
    rw [mergeRun_cons_some] at h
    obtain ⟨hsub, hmem⟩ := ih (mergeFact n f) m h
    refine ⟨fun d hd => hsub d (mergeFact_docs_subset n f d hd), ?_⟩
    intro x hx
    rcases List.mem_cons.mp hx with rfl | hx'
    · exact hsub x.document_id (mergeFact_docs_self n x)
    · exact hmem x hx'

theorem mergeRun_nodup (et key : String) (fs : List ClinicalFact) :
    ∀ n m, mergeRun et key (some n) fs = some m →
      n.source_documents.Nodup → m.source_documents.Nodup := by
  induction fs with
  | nil =>
    intro n m h hn
    rw [mergeRun_nil] at h
    cases h
    exact hn
  | cons f fs ih =>
    intro n m h hn
    rw [mergeRun_cons_some] at h
    exact ih (mergeFact n f) m h (addDoc_nodup hn)

theorem filterId_foldl_named (et key : String) (hkey : key ≠ "") (es : List ClinicalFact) :
    ∀ acc, (∀ x ∈ es, normalise x.name = "" → x.id ≠ key) →
      (filterId (et ++ "::" ++ key) acc).length ≤ 1 →
      filterId (et ++ "::" ++ key) (es.foldl (insertFact et) acc)
        = (mergeRun et key (filterId (et ++ "::" ++ key) acc).head?
            (es.filter (fun x => decide (normalise x.name = key)))).toList := by
  induction es with
  | nil =>
    intro acc _ hinv
    match h : filterId (et ++ "::" ++ key) acc with
    | [] => simp [h, mergeRun_nil]
    | [x] => simp [h, mergeRun_nil]
    | x :: y :: rest => rw [h] at hinv; simp at hinv
  | cons f es ih =>
    intro acc hcol hinv
    rw [List.foldl_cons, List.filter_cons]
    by_cases hk0 : normalise f.name = ""
    · have hfid : f.id ≠ key := hcol f (List.mem_cons_self f es) hk0
      have hnid : et ++ "::" ++ f.id ≠ et ++ "::" ++ key := fun h => hfid (nodeId_inj h)
      have hstep : filterId (et ++ "::" ++ key) (insertFact et acc f)
          = filterId (et ++ "::" ++ key) acc := by
        rw [insertFact_unnamed et acc f hk0, filterId_append, filterId_cons,
          freshNode_id, if_neg hnid, filterId_nil, List.append_nil]
      have hskip : ¬ (decide (normalise f.name = key) = true) := by
        simp [hk0]
        exact fun h => hkey h.symm
      rw [if_neg hskip, ih (insertFact et acc f)
        (fun x hx => hcol x (List.mem_cons_of_mem f hx)) (hstep ▸ hinv), hstep]
    · by_cases hkk : normalise f.name = key
      · rw [if_pos (by simp [hkk])]
        match hfi : filterId (et ++ "::" ++ key) acc with
        | [] =>
          have hany : (acc.any fun n => n.id == et ++ "::" ++ normalise f.name) = false := by
            rw [hkk, filterId_eq_nil_iff_any]
            exact hfi
          have hstep : filterId (et ++ "::" ++ key) (insertFact et acc f)
              = [freshNode et (et ++ "::" ++ key) f] := by
            rw [insertFact_named_new et acc f hk0 hany, filterId_append, hfi, hkk,
              filterId_cons, freshNode_id, if_pos rfl, filterId_nil]
            rfl
          rw [ih (insertFact et acc f)
            (fun x hx => hcol x (List.mem_cons_of_mem f hx)) (by rw [hstep]; simp),
            hstep]
          simp only [List.head?_cons, List.head?_nil, mergeRun_cons_none]
        | [x] =>
          have hx : x ∈ filterId (et ++ "::" ++ key) acc := by
            rw [hfi]; exact List.mem_cons_self x []
          obtain ⟨hxm, hxid⟩ := mem_filterId.mp hx
          have hany : (acc.any fun n => n.id == et ++ "::" ++ normalise f.name) = true := by
            rw [List.any_eq_true]
            exact ⟨x, hxm, by simp [hxid, hkk]⟩
          have hstep : filterId (et ++ "::" ++ key) (insertFact et acc f)
              = [mergeFact x f] := by
            rw [insertFact_named_merge et acc f hk0 hany, hkk, filterId_mergeMap,
              if_pos rfl, hfi]
            rfl
          rw [ih (insertFact et acc f)
            (fun x hx => hcol x (List.mem_cons_of_mem f hx)) (by rw [hstep]; simp),
            hstep]
          simp only [List.head?_cons, mergeRun_cons_some]
        | x :: y :: rest => rw [hfi] at hinv; simp at hinv
      · have hnid : et ++ "::" ++ normalise f.name ≠ et ++ "::" ++ key := fun h =>
          hkk (nodeId_inj h)
        have hstep : filterId (et ++ "::" ++ key) (insertFact et acc f)
            = filterId (et ++ "::" ++ key) acc := by
          cases hany : (acc.any fun n => n.id == et ++ "::" ++ normalise f.name) with
          | false =>
            rw [insertFact_named_new et acc f hk0 hany, filterId_append, filterId_cons,
              freshNode_id, if_neg hnid, filterId_nil, List.append_nil]
          | true =>
            rw [insertFact_named_merge et acc f hk0 hany, filterId_mergeMap, if_neg hnid]
        rw [if_neg (by simpa using hkk), ih (insertFact et acc f)
          (fun x hx => hcol x (List.mem_cons_of_mem f hx)) (hstep ▸ hinv), hstep]

theorem filterId_foldl_unnamed (et fid : String) (es : List ClinicalFact) :
    ∀ acc, (∀ x ∈ es, normalise x.name ≠ "" → normalise x.name ≠ fid) →
      filterId (et ++ "::" ++ fid) (es.foldl (insertFact et) acc)
        = filterId (et ++ "::" ++ fid) acc
          ++ (es.filter (fun x =>
                decide (normalise x.name = "") && decide (x.id = fid))).map
              (fun x => freshNode et (et ++ "::" ++ x.id) x) := by
  induction es with
  | nil => intro acc _; simp
  | cons f es ih =>
    intro acc hcol
    rw [List.foldl_cons, List.filter_cons]
    by_cases hk0 : normalise f.name = ""
    · by_cases hfid : f.id = fid
      · have hstep : filterId (et ++ "::" ++ fid) (insertFact et acc f)
            = filterId (et ++ "::" ++ fid) acc ++ [freshNode et (et ++ "::" ++ f.id) f] := by
          rw [insertFact_unnamed et acc f hk0, filterId_append, filterId_cons,
            freshNode_id, if_pos (by rw [hfid]), filterId_nil]
        rw [if_pos (by simp [hk0, hfid]),
          ih (insertFact et acc f) (fun x hx => hcol x (List.mem_cons_of_mem f hx)),
          hstep, List.map_cons, List.append_assoc, List.singleton_append]
      · have hnid : et ++ "::" ++ f.id ≠ et ++ "::" ++ fid := fun h => hfid (nodeId_inj h)
        have hstep : filterId (et ++ "::" ++ fid) (insertFact et acc f)
            = filterId (et ++ "::" ++ fid) acc := by
          rw [insertFact_unnamed et acc f hk0, filterId_append, filterId_cons,
            freshNode_id, if_neg hnid, filterId_nil, List.append_nil]
        rw [if_neg (by simp [hfid]),
          ih (insertFact et acc f) (fun x hx => hcol x (List.mem_cons_of_mem f hx)), hstep]
    · have hkf : normalise f.name ≠ fid := hcol f (List.mem_cons_self f es) hk0
      have hnid : et ++ "::" ++ normalise f.name ≠ et ++ "::" ++ fid := fun h =>
        hkf (nodeId_inj h)
      have hstep : filterId (et ++ "::" ++ fid) (insertFact et acc f)
          = filterId (et ++ "::" ++ fid) acc := by
        cases hany : (acc.any fun n => n.id == et ++ "::" ++ normalise f.name) with
        | false =>
          rw [insertFact_named_new et acc f hk0 hany, filterId_append, filterId_cons,
            freshNode_id, if_neg hnid, filterId_nil, List.append_nil]
        | true =>
          rw [insertFact_named_merge et acc f hk0 hany, filterId_mergeMap, if_neg hnid]
      rw [if_neg (by simp [hk0]),
        ih (insertFact et acc f) (fun x hx => hcol x (List.mem_cons_of_mem f hx)), hstep]

theorem mergeRun_mem_docs (et key : String) (fs : List ClinicalFact) (m : GraphNode)
    (h : mergeRun et key none fs = some m) :
    ∀ y ∈ fs, y.document_id ∈ m.source_documents := by
  cases fs with
  | nil => rw [mergeRun_nil] at h; cases h
  | cons x fs' =>
    rw [mergeRun_cons_none] at h
    have hd := mergeRun_docs et key fs' _ m h
    intro y hy
    rcases List.mem_cons.mp hy with rfl | hy'
    · exact hd.1 y.document_id (by simp [freshNode])
    · exact hd.2 y hy'

theorem mergeRun_none_nodup (et key : String) (fs : List ClinicalFact) (m : GraphNode)
    (h : mergeRun et key none fs = some m) : m.source_documents.Nodup := by
  cases fs with
  | nil => rw [mergeRun_nil] at h; cases h
  | cons x fs' =>
    rw [mergeRun_cons_none] at h
    exact mergeRun_nodup et key fs' _ m h (by simp [freshNode])

/-- C1: within one build, the Canonicalizer keeps exactly one GraphNode per
(entity type, canonical key) pair — any two facts of one entity type whose
names normalise to the same non-empty canonical key end in one single node,
whose source documents contain both document ids of both facts without
duplicates. -/
theorem claim_c1_canonical_merge (et : String) (facts : List ClinicalFact)
    (f g : ClinicalFact) (hf : f ∈ facts) (hg : g ∈ facts)
    (hkey : normalise g.name = normalise f.name)
    (hne : normalise f.name ≠ "")
    (hcol : ∀ x ∈ facts, normalise x.name = "" → x.id ≠ normalise f.name) :
    ∃ n, filterId (et ++ "::" ++ normalise f.name) (canonicalise et facts) = [n] ∧
      f.document_id ∈ n.source_documents ∧ g.document_id ∈ n.source_documents ∧
      n.source_documents.Nodup := by
  have hmain : filterId (et ++ "::" ++ normalise f.name) (canonicalise et facts)
      = (mergeRun et (normalise f.name) none
          (facts.filter (fun x => decide (normalise x.name = normalise f.name)))).toList :=
    filterId_foldl_named et (normalise f.name) hne facts [] hcol (by simp [filterId])
  have hffs : f ∈ facts.filter (fun x => decide (normalise x.name = normalise f.name)) :=
    List.mem_filter.mpr ⟨hf, by simp⟩
  obtain ⟨m, hm⟩ : ∃ m, mergeRun et (normalise f.name) none
      (facts.filter (fun x => decide (normalise x.name = normalise f.name))) = some m := by
    cases hfsc : facts.filter (fun x => decide (normalise x.name = normalise f.name)) with
    | nil => rw [hfsc] at hffs; exact absurd hffs (List.not_mem_nil f)
    | cons x fs' =>
      rw [mergeRun_cons_none]
      exact mergeRun_some_isSome et (normalise f.name) fs' _
  refine ⟨m, by rw [hmain, hm]; rfl, ?_, ?_, mergeRun_none_nodup _ _ _ m hm⟩
  · exact mergeRun_mem_docs _ _ _ m hm f hffs
  · exact mergeRun_mem_docs _ _ _ m hm g
      (List.mem_filter.mpr ⟨hg, by simp [hkey]⟩)

/-- C1 witness: scenario 1 — facts named "Hypertension" and
"  hypertension!! " from two documents merge into the single node
`condition::hypertension` holding both document ids. -/
theorem claim_c1_witness :
    (cFactA ∈ [cFactA, cFactB] ∧ cFactB ∈ [cFactA, cFactB] ∧
      normalise cFactB.name = normalise cFactA.name ∧ normalise cFactA.name ≠ "" ∧
      ∀ x ∈ [cFactA, cFactB], normalise x.name = "" → x.id ≠ normalise cFactA.name) ∧
    ∃ n, filterId ("condition" ++ "::" ++ normalise cFactA.name)
        (canonicalise "condition" [cFactA, cFactB]) = [n] ∧
      cFactA.document_id ∈ n.source_documents ∧ cFactB.document_id ∈ n.source_documents ∧
      n.source_documents.Nodup :=
  ⟨⟨by decide, by decide, by decide, by decide, by decide⟩,
    claim_c1_canonical_merge "condition" [cFactA, cFactB] cFactA cFactB
      (by decide) (by decide) (by decide) (by decide) (by decide)⟩

/-- C9: facts whose names normalise to the empty canonical key each
produce their own node keyed by the source fact id, never merged — two
distinct unnamed facts always yield two distinct nodes. -/
theorem claim_c9_empty_key (et : String) (facts : List ClinicalFact)
    (f g : ClinicalFact)
    (hfk : normalise f.name = "") (hgk : normalise g.name = "")
    (hne : f.id ≠ g.id)
    (hoccf : facts.filter (fun x => decide (x.id = f.id)) = [f])
    (hoccg : facts.filter (fun x => decide (x.id = g.id)) = [g])
    (hcol : ∀ x ∈ facts, normalise x.name ≠ "" →
      normalise x.name ≠ f.id ∧ normalise x.name ≠ g.id) :
    filterId (et ++ "::" ++ f.id) (canonicalise et facts)
        = [freshNode et (et ++ "::" ++ f.id) f] ∧
    filterId (et ++ "::" ++ g.id) (canonicalise et facts)
        = [freshNode et (et ++ "::" ++ g.id) g] ∧
    et ++ "::" ++ f.id ≠ et ++ "::" ++ g.id := by
  have side : ∀ (fid : String) (ff : ClinicalFact), normalise ff.name = "" →
      facts.filter (fun x => decide (x.id = fid)) = [ff] →
      (∀ x ∈ facts, normalise x.name ≠ "" → normalise x.name ≠ fid) →
      filterId (et ++ "::" ++ fid) (canonicalise et facts)
        = [freshNode et (et ++ "::" ++ fid) ff] := by
    intro fid ff hffk hocc hc
    have hmain : filterId (et ++ "::" ++ fid) (canonicalise et facts)
        = filterId (et ++ "::" ++ fid) []
          ++ (facts.filter (fun x =>
                decide (normalise x.name = "") && decide (x.id = fid))).map
              (fun x => freshNode et (et ++ "::" ++ x.id) x) :=
      filterId_foldl_unnamed et fid facts [] hc
    have hflt : facts.filter (fun x =>
        decide (normalise x.name = "") && decide (x.id = fid)) = [ff] := by
      rw [← List.filter_filter, hocc, List.filter_cons, if_pos (by simpa using hffk)]
      rfl
    have hffid : ff.id = fid := by
      have : ff ∈ facts.filter (fun x => decide (x.id = fid)) := by
        rw [hocc]; exact List.mem_cons_self ff []
      simpa using (List.mem_filter.mp this).2
    rw [hmain, hflt, filterId_nil, List.nil_append, List.map_cons, hffid]
    rfl
  refine ⟨side f.id f hfk hoccf (fun x hx h => (hcol x hx h).1),
    side g.id g hgk hoccg (fun x hx h => (hcol x hx h).2),
    fun h => hne (nodeId_inj h)⟩

/-- C9 witness: two unnamed facts — an entirely-punctuation name and an
empty name — yield two distinct fresh nodes keyed by their fact ids. -/
theorem claim_c9_witness :
    (normalise uFactA.name = "" ∧ normalise uFactB.name = "" ∧ uFactA.id ≠ uFactB.id ∧
      [uFactA, uFactB].filter (fun x => decide (x.id = uFactA.id)) = [uFactA] ∧
      [uFactA, uFactB].filter (fun x => decide (x.id = uFactB.id)) = [uFactB] ∧
      ∀ x ∈ [uFactA, uFactB], normalise x.name ≠ "" →
        normalise x.name ≠ uFactA.id ∧ normalise x.name ≠ uFactB.id) ∧
    filterId ("lab_result" ++ "::" ++ uFactA.id) (canonicalise "lab_result" [uFactA, uFactB])
        = [freshNode "lab_result" ("lab_result" ++ "::" ++ uFactA.id) uFactA] ∧
    filterId ("lab_result" ++ "::" ++ uFactB.id) (canonicalise "lab_result" [uFactA, uFactB])
        = [freshNode "lab_result" ("lab_result" ++ "::" ++ uFactB.id) uFactB] ∧
    "lab_result" ++ "::" ++ uFactA.id ≠ "lab_result" ++ "::" ++ uFactB.id :=
  ⟨⟨by decide, by decide, by decide, by decide, by decide, by decide⟩,
    claim_c9_empty_key "lab_result" [uFactA, uFactB] uFactA uFactB
      (by decide) (by decide) (by decide) (by decide) (by decide) (by decide)⟩

/-! Merge commutativity lemmas -/

theorem lookupProp_append (l₁ l₂ : List (String × String)) (k : String) :
    lookupProp (l₁ ++ l₂) k =
      match lookupProp l₁ k with
      | some v => some v
      | none => lookupProp l₂ k := by
  induction l₁ with
  | nil => rfl
  | cons p l ih =>
    by_cases h : p.1 = k
    · simp [lookupProp, h]
    · simp [lookupProp, h, ih]

theorem lookupProp_eq_none {l : List (String × String)} {k : String} :
    lookupProp l k = none ↔ ∀ p ∈ l, p.1 ≠ k := by
  induction l with
  | nil => simp [lookupProp]
  | cons p l ih =>
    by_cases h : p.1 = k
    · simp [lookupProp, h]
    · simp [lookupProp, h, ih]

theorem lookupProp_mem {l : List (String × String)} {k v : String}
    (h : lookupProp l k = some v) : (k, v) ∈ l := by
  induction l with
  | nil => cases h
  | cons p l ih =>
    by_cases hp : p.1 = k
    · rw [lookupProp, if_pos hp] at h
      cases h
      rw [← hp]
      exact List.mem_cons_self p l
    · rw [lookupProp, if_neg hp] at h
      exact List.mem_cons_of_mem p (ih h)

theorem fillProps_cons (np : List (String × String)) (q : String × String)
    (fp : List (String × String)) :
    fillProps np (q :: fp) =
      fillProps (if np.any (fun p => p.1 == q.1) then np else np ++ [q]) fp := rfl

theorem lookup_fillProps (fp : List (String × String)) :
    ∀ (np : List (String × String)) (k : String),
      lookupProp (fillProps np fp) k =
        match lookupProp np k with
        | some v => some v
        | none => lookupProp fp k := by
  induction fp with
  | nil =>
    intro np k
    cases h : lookupProp np k <;> simp [fillProps, h, lookupProp]
  | cons q fp ih =>
    intro np k
    rw [fillProps_cons]
    cases hany : np.any (fun p => p.1 == q.1) with
    | true =>
      rw [if_pos rfl, ih np k]
      cases h : lookupProp np k with
      | some v => simp [h]
      | none =>
        have hq : q.1 ≠ k := by
          obtain ⟨p, hp, hpq⟩ := List.any_eq_true.mp hany
          have hpk := lookupProp_eq_none.mp h p hp
          have : p.1 = q.1 := by simpa using hpq
          exact this ▸ hpk
        simp [h, lookupProp, hq]
    | false =>
      rw [if_neg (fun hcon => Bool.noConfusion hcon), ih (np ++ [q]) k, lookupProp_append]
      cases h : lookupProp np k with
      | some v => simp [h]
      | none =>
        by_cases hq : q.1 = k <;> simp [h, hq, lookupProp]

theorem lookup_fill_comm (np ap bp : List (String × String))
    (hcons : ∀ p ∈ ap, ∀ q ∈ bp, p.1 = q.1 → p.2 = q.2) (k : String) :
    lookupProp (fillProps (fillProps np ap) bp) k
      = lookupProp (fillProps (fillProps np bp) ap) k := by
  rw [lookup_fillProps, lookup_fillProps, lookup_fillProps, lookup_fillProps]
  cases hn : lookupProp np k with
  | some v => simp
  | none =>
    cases ha : lookupProp ap k with
    | some va =>
      cases hb : lookupProp bp k with
      | some vb =>
        have hv : va = vb := hcons (k, va) (lookupProp_mem ha) (k, vb) (lookupProp_mem hb) rfl
        simp [ha, hb, hv]
      | none => simp [ha, hb]
    | none =>
      cases hb : lookupProp bp k with
      | some vb => simp [ha, hb]
      | none => simp [ha, hb]

theorem promoteSev_some_some (x y : Nat) :
    promoteSev (some x) (some y) = some (max x y) := by
  by_cases h : x < y <;> simp [promoteSev, h] <;> omega

theorem promoteSev_none_right (o : Option Nat) : promoteSev o none = o := rfl

theorem promoteSev_none_left (y : Nat) : promoteSev none (some y) = some y := rfl

theorem promoteSev_comm (s a b : Option Nat) :
    promoteSev (promoteSev s a) b = promoteSev (promoteSev s b) a := by
  rcases a with _ | ra
  · rw [promoteSev_none_right, promoteSev_none_right]
  · rcases b with _ | rb
    · rw [promoteSev_none_right, promoteSev_none_right]
    · rcases s with _ | rs
      · rw [promoteSev_none_left, promoteSev_none_left, promoteSev_some_some,
          promoteSev_some_some, Nat.max_comm]
      · rw [promoteSev_some_some, promoteSev_some_some, promoteSev_some_some,
          promoteSev_some_some]
        simp only [Option.some.injEq]
        omega

theorem pullEarliest_some_some (x y : Int) :
    pullEarliest (some x) (some y) = some (min x y) := by
  by_cases h : y < x <;> simp [pullEarliest, h] <;> omega

theorem pullEarliest_none_right (o : Option Int) : pullEarliest o none = o := rfl

theorem pullEarliest_none_left (y : Int) : pullEarliest none (some y) = some y := rfl

theorem pullEarliest_comm (s a b : Option Int) :
    pullEarliest (pullEarliest s a) b = pullEarliest (pullEarliest s b) a := by
  rcases a with _ | da
  · rw [pullEarliest_none_right, pullEarliest_none_right]
  · rcases b with _ | db
    · rw [pullEarliest_none_right, pullEarliest_none_right]
    · rcases s with _ | ds
      · rw [pullEarliest_none_left, pullEarliest_none_left, pullEarliest_some_some,
          pullEarliest_some_some, Int.min_comm]
      · rw [pullEarliest_some_some, pullEarliest_some_some, pullEarliest_some_some,
          pullEarliest_some_some]
        simp only [Option.some.injEq]
        omega

theorem addDoc_comm_mem (l : List String) (a b d : String) :
    d ∈ addDoc (addDoc l a) b ↔ d ∈ addDoc (addDoc l b) a := by
  simp only [addDoc_mem]
  tauto

/-- C4 counterexample: merging facts A then B is not always the same node
as merging B then A — when both facts carry a value for the same property
key absent from the node, the first-merged value wins, so the two orders
disagree on that property. -/
theorem claim_c4_counterexample :
    normalise cFactA.name = normalise cFactB.name ∧
    ¬ nodeEquiv (mergeFact (mergeFact cNode0 cFactA) cFactB)
        (mergeFact (mergeFact cNode0 cFactB) cFactA) := by
  refine ⟨by decide, fun h => ?_⟩
  exact absurd (h.2.2.2.1 "notes") (by decide)

/-- C4 as amended: merging A then B into a node equals merging B then A —
on the id, label, entity type, property-map lookups, source documents as a
set, severity, and earliest date — provided the two facts do not assign
conflicting values to the same property key. -/
theorem claim_c4_amended_commutative (n : GraphNode) (A B : ClinicalFact)
    (hkey : normalise A.name = normalise B.name)
    (hcons : ∀ p ∈ A.props, ∀ q ∈ B.props, p.1 = q.1 → p.2 = q.2) :
    nodeEquiv (mergeFact (mergeFact n A) B) (mergeFact (mergeFact n B) A) := by
  unfold nodeEquiv
  refine ⟨rfl, rfl, rfl, ?_, ?_, ?_, ?_⟩
  · intro k
    exact lookup_fill_comm n.properties A.props B.props hcons k
  · intro d
    exact addDoc_comm_mem n.source_documents A.document_id B.document_id d
  · exact promoteSev_comm n.severity A.severity B.severity
  · exact pullEarliest_comm n.earliest_date A.occurred_on B.occurred_on

/-- C4 witness: two same-key facts with disjoint property keys merge
commutatively into the concrete node. -/
theorem claim_c4_witness :
    (normalise cFactA.name = normalise cFactC.name ∧
      ∀ p ∈ cFactA.props, ∀ q ∈ cFactC.props, p.1 = q.1 → p.2 = q.2) ∧
    nodeEquiv (mergeFact (mergeFact cNode0 cFactA) cFactC)
      (mergeFact (mergeFact cNode0 cFactC) cFactA) :=
  ⟨⟨by decide, by decide⟩,
    claim_c4_amended_commutative cNode0 cFactA cFactC (by decide) (by decide)⟩

/-! Graph Summarizer lemmas -/

theorem sumCounts_nil : sumCounts [] = 0 := rfl

theorem sumCounts_bump (l : List (String × Nat)) (k : String) :
    sumCounts (bumpCount l k) = sumCounts l + 1 := by
  induction l with
  | nil => rfl
  | cons p l ih =>
    by_cases h : p.1 = k
    · simp [bumpCount, h, sumCounts]
      omega
    · simp only [bumpCount, if_neg h]
      simp [sumCounts] at ih ⊢
      omega

theorem sumCounts_countBy_aux (keys : List String) :
    ∀ acc, sumCounts (keys.foldl bumpCount acc) = sumCounts acc + keys.length := by
  induction keys with
  | nil => intro acc; simp
  | cons k keys ih =>
    intro acc
    rw [List.foldl_cons, ih (bumpCount acc k), sumCounts_bump]
    simp only [List.length_cons]
    omega

theorem sumCounts_countBy (keys : List String) :
    sumCounts (countBy keys) = keys.length := by
  rw [countBy, sumCounts_countBy_aux keys [], sumCounts_nil]
  omega

theorem sumConf_nonneg (edges : List GraphEdge)
    (h : ∀ e ∈ edges, 0 ≤ e.confidence) : 0 ≤ sumConf edges := by
  induction edges with
  | nil => simp [sumConf]
  | cons e es ih =>
    have h1 := h e (List.mem_cons_self e es)
    have h2 := ih (fun x hx => h x (List.mem_cons_of_mem e hx))
    simp only [sumConf]
    linarith

theorem sumConf_le_length (edges : List GraphEdge)
    (h : ∀ e ∈ edges, e.confidence ≤ 1) : sumConf edges ≤ (edges.length : ℚ) := by
  induction edges with
  | nil => simp [sumConf]
  | cons e es ih =>
    have h1 := h e (List.mem_cons_self e es)
    have h2 := ih (fun x hx => h x (List.mem_cons_of_mem e hx))
    simp only [sumConf, List.length_cons]
    push_cast
    linarith

/-- C5: the statistics are consistent — node-type counts sum to
`total_nodes`, relationship-type counts sum to `total_edges`,
`avg_confidence` is the arithmetic mean of edge confidences (0 for an
edgeless graph, never a division error), it lies in [0, 1] when the edge
confidences do, and `high_confidence` counts the edges with confidence at
least 0.8. -/
theorem claim_c5_stats_consistent (nodes : List GraphNode) (edges : List GraphEdge) :
    sumCounts (computeStats nodes edges).node_types = (computeStats nodes edges).total_nodes ∧
    sumCounts (computeStats nodes edges).relationship_types
      = (computeStats nodes edges).total_edges ∧
    (edges = [] → (computeStats nodes edges).avg_confidence = 0) ∧
    (edges ≠ [] → (computeStats nodes edges).avg_confidence
      = sumConf edges / (edges.length : ℚ)) ∧
    ((∀ e ∈ edges, 0 ≤ e.confidence ∧ e.confidence ≤ 1) →
      0 ≤ (computeStats nodes edges).avg_confidence ∧
      (computeStats nodes edges).avg_confidence ≤ 1) ∧
    (computeStats nodes edges).high_confidence
      = (edges.filter (fun e => 8/10 ≤ e.confidence)).length := by
  have havg : (computeStats nodes edges).avg_confidence
      = if edges.isEmpty then 0 else sumConf edges / (edges.length : ℚ) := rfl
  refine ⟨?_, ?_, ?_, ?_, ?_, rfl⟩
  · show sumCounts (countBy (nodes.map (fun n => n.entity_type))) = nodes.length
    rw [sumCounts_countBy, List.length_map]
  · show sumCounts (countBy (edges.map (fun e => e.type))) = edges.length
    rw [sumCounts_countBy, List.length_map]
  · intro h
    subst h
    rfl
  · intro h
    rw [havg, if_neg (by simpa using h)]
  · intro hb
    by_cases h : edges = []
    · subst h
      constructor <;> simp [computeStats]
    · have hlen : 0 < (edges.length : ℚ) := by
        have := List.length_pos.mpr h
        exact_mod_cast this
      rw [havg, if_neg (by simpa using h)]
      constructor
      · exact div_nonneg (sumConf_nonneg edges (fun e he => (hb e he).1)) (le_of_lt hlen)
      · rw [div_le_one hlen]
        exact sumConf_le_length edges (fun e he => (hb e he).2)

/-- C5 witness: a one-node, two-edge graph with confidences 0.5 and 0.9,
whose mean confidence lies in [0, 1]. -/
theorem claim_c5_witness :
    (∀ e ∈ [wEdge1, wEdge2], 0 ≤ e.confidence ∧ e.confidence ≤ 1) ∧
    (0 ≤ (computeStats [cNode0] [wEdge1, wEdge2]).avg_confidence ∧
      (computeStats [cNode0] [wEdge1, wEdge2]).avg_confidence ≤ 1) :=
  ⟨by decide, (claim_c5_stats_consistent [cNode0] [wEdge1, wEdge2]).2.2.2.2.1 (by decide)⟩

/-! Relationship Inferencer: temporal rule -/

/-- C7: for a (medication, condition) pair not already connected by an
ontology edge, the temporal rule emits a `treats_for` edge at confidence
0.70 exactly when the earliest start date of the medication falls in the 30-day
window after the diagnosis date of the condition; the evidence text reports the
exact day gap, and a medication starting before the diagnosis never
qualifies. -/
theorem claim_c7_temporal_rule :
    (∀ m c : GraphNode, ∀ dm dc : Int,
      m.earliest_date = some dm → c.earliest_date = some dc →
      ((temporalPair m c).isSome ↔ 0 ≤ dm - dc ∧ dm - dc ≤ 30) ∧
      (dm < dc → temporalPair m c = none) ∧
      (0 ≤ dm - dc ∧ dm - dc ≤ 30 →
        temporalPair m c = some (mkTemporalEdge m c (dm - dc)))) ∧
    (∀ m c : GraphNode, ∀ gap : Int,
      (mkTemporalEdge m c gap).type = "treats_for" ∧
      (mkTemporalEdge m c gap).confidence = 7/10 ∧
      (mkTemporalEdge m c gap).source = m.id ∧
      (mkTemporalEdge m c gap).target = c.id ∧
      ∃ pre post, (mkTemporalEdge m c gap).evidence
        = pre ++ (toString gap ++ " days") ++ post) ∧
    (∀ (meds conds : List GraphNode) (ont : List GraphEdge) (m c : GraphNode)
      (e : GraphEdge), m ∈ meds → c ∈ conds →
      (ont.any fun oe => oe.source == m.id && oe.target == c.id) = false →
      temporalPair m c = some e → e ∈ temporalEdges meds conds ont) ∧
    (∀ (meds conds : List GraphNode) (ont : List GraphEdge),
      ∀ e ∈ temporalEdges meds conds ont,
      ∃ m c, m ∈ meds ∧ c ∈ conds ∧
        (ont.any fun oe => oe.source == m.id && oe.target == c.id) = false ∧
        temporalPair m c = some e) := by
  refine ⟨?_, ?_, ?_, ?_⟩
  · intro m c dm dc hm hc
    simp only [temporalPair, hm, hc]
    refine ⟨?_, ?_, ?_⟩
    · by_cases h : 0 ≤ dm - dc ∧ dm - dc ≤ 30 <;> simp [h]
    · intro hlt
      rw [if_neg (fun h => by omega)]
    · intro h
      rw [if_pos h]
  · intro m c gap
    refine ⟨rfl, rfl, rfl, rfl,
      "Temporal: " ++ m.label ++ " started ", " after " ++ c.label ++ " diagnosis", ?_⟩
    have hev : (mkTemporalEdge m c gap).evidence
        = "Temporal: " ++ m.label ++ " started " ++ toString gap ++
          " days after " ++ c.label ++ " diagnosis" := rfl
    rw [hev, show (" days after " : String) = " days" ++ " after " by decide]
    simp only [strAppend_assoc]
  · intro meds conds ont m c e hm hc hont hpair
    unfold temporalEdges
    rw [List.mem_flatMap]
    refine ⟨m, hm, List.mem_filterMap.mpr ⟨c, hc, ?_⟩⟩
    rw [if_neg (by simp [hont]), hpair]
  · intro meds conds ont e he
    unfold temporalEdges at he
    rw [List.mem_flatMap] at he
    obtain ⟨m, hm, hin⟩ := he
    rw [List.mem_filterMap] at hin
    obtain ⟨c, hc, heq⟩ := hin
    by_cases hont : (ont.any fun oe => oe.source == m.id && oe.target == c.id) = true
    · rw [if_pos hont] at heq
      cases heq
    · rw [if_neg hont] at heq
      exact ⟨m, c, hm, hc, by simpa using hont, heq⟩

/-- C7 witness: scenario 2 — Metformin started 12 days after the Diabetes
diagnosis yields the temporal `treats_for` edge, whose evidence text
contains "12 days". -/
theorem claim_c7_witness :
    (nMet.earliest_date = some 112 ∧ nDia.earliest_date = some 100 ∧
      ((0:Int) ≤ 112 - 100 ∧ (112:Int) - 100 ≤ 30)) ∧
    temporalPair nMet nDia = some (mkTemporalEdge nMet nDia (112 - 100)) ∧
    ∃ pre post, (mkTemporalEdge nMet nDia 12).evidence
      = pre ++ (toString (12 : Int) ++ " days") ++ post :=
  ⟨⟨rfl, rfl, by decide⟩,
    (claim_c7_temporal_rule.1 nMet nDia 112 100 rfl rfl).2.2 (by decide),
    (claim_c7_temporal_rule.2.1 nMet nDia 12).2.2.2.2⟩

/-! Graph Assembler -/

/-- C8: in the Assembler state machine the FAILED state is reachable from
LOADING only and is absorbing; once the fact sets are loaded, the whole
assembly is a total function — it returns a payload for every in-memory
input, so no later stage can fail the build. -/
theorem claim_c8_failed_only_from_loading :
    (∀ s s' : BuildState, s' ∈ nextStates s → s' = BuildState.failed →
      s = BuildState.loading) ∧
    nextStates BuildState.failed = [] ∧
    (∀ (tbl : OntologyTables) (fs : FactSets),
      buildGraph tbl (Except.ok fs) = Except.ok (assembleGraph tbl fs)) := by
  refine ⟨?_, rfl, fun tbl fs => rfl⟩
  intro s s' hmem hfail
  subst hfail
  cases s <;> first | rfl | simp [nextStates] at hmem

/-- C8 witness: the failed transition out of loading, and a concrete
successful build from loaded fact sets. -/
theorem claim_c8_witness :
    BuildState.loading = BuildState.loading ∧
    buildGraph ⟨[], [], []⟩ (Except.ok ⟨[], [], [], [], []⟩)
      = Except.ok (assembleGraph ⟨[], [], []⟩ ⟨[], [], [], [], []⟩) :=
  ⟨claim_c8_failed_only_from_loading.1 BuildState.loading BuildState.failed
      (by decide) rfl,
    claim_c8_failed_only_from_loading.2.2 ⟨[], [], []⟩ ⟨[], [], [], [], []⟩⟩

/-- C6: a patient with zero clinical facts yields a successful build with
empty nodes, empty edges, zero-valued statistics, empty clusters, and a
non-empty message; the message field is present exactly when the node list
is empty, and the fetch handler of the page displays the payload message for an
empty graph instead of failing. -/
theorem claim_c6_empty_graph :
    (∀ tbl : OntologyTables, assembleGraph tbl ⟨[], [], [], [], []⟩ =
      ⟨[], [], ⟨0, 0, [], [], 0, 0⟩, [],
        some "No clinical entities were found for this patient. Upload and process medical documents to build the knowledge graph."⟩) ∧
    ("No clinical entities were found for this patient. Upload and process medical documents to build the knowledge graph." ≠ "") ∧
    (∀ (tbl : OntologyTables) (fs : FactSets),
      (assembleGraph tbl fs).message.isSome ↔ (assembleGraph tbl fs).nodes.isEmpty = true) ∧
    (∀ (tbl : OntologyTables) (fs : FactSets),
      ∃ p, buildGraph tbl (Except.ok fs) = Except.ok p) ∧
    (∀ msg : String, fetchGraphDisplay [] (some msg) = some msg) := by
  refine ⟨fun tbl => rfl, by decide, ?_, fun tbl fs => ⟨assembleGraph tbl fs, rfl⟩,
    fun msg => rfl⟩
  intro tbl fs
  simp only [assembleGraph]
  split
  next h => exact iff_of_true rfl h
  next h => exact iff_of_false (by simp) h

/-- C6 witness: the build for empty fact sets, with its message displayed
by the page. -/
theorem claim_c6_witness :
    (assembleGraph ⟨[], [], []⟩ ⟨[], [], [], [], []⟩).nodes = [] ∧
    ((assembleGraph ⟨[], [], []⟩ ⟨[], [], [], [], []⟩).message.isSome ↔
      (assembleGraph ⟨[], [], []⟩ ⟨[], [], [], [], []⟩).nodes.isEmpty = true) ∧
    fetchGraphDisplay [] (some "m") = some "m" :=
  ⟨by rw [claim_c6_empty_graph.1 ⟨[], [], []⟩],
    claim_c6_empty_graph.2.2.1 ⟨[], [], []⟩ ⟨[], [], [], [], []⟩,
    claim_c6_empty_graph.2.2.2.2 "m"⟩

/-! Frontend filter -/

/-- C10: every edge the knowledge-graph page passes to the renderer has
distinct source and target (self-loops are always dropped), and under a
single-type filter both endpoints of every rendered edge belong to the
visible node set of that type. -/
theorem claim_c10_filtered_edges (filter : String) (nodes : List KGNodeT)
    (edges : List KGEdgeT) (e : KGEdgeT)
    (he : e ∈ applyFilterEdges filter nodes edges) :
    e.source ≠ e.target ∧
    (filter ≠ "all" →
      e.source ∈ (nodes.filter (fun n => n.type == filter)).map (fun n => n.id) ∧
      e.target ∈ (nodes.filter (fun n => n.type == filter)).map (fun n => n.id)) := by
  simp only [applyFilterEdges] at he
  rw [List.mem_filter] at he
  obtain ⟨_, hp⟩ := he
  by_cases hall : filter = "all"
  · subst hall
    rw [if_pos (by decide : (("all" : String) == "all") = true)] at hp
    exact ⟨bne_iff_ne.mp hp, fun hne => absurd rfl hne⟩
  · have hcond : ¬ ((filter == "all") = true) := by simp [hall]
    rw [if_neg hcond] at hp
    rw [Bool.and_eq_true, Bool.and_eq_true] at hp
    obtain ⟨⟨hs, ht⟩, hne⟩ := hp
    unfold visibleIds at hs ht
    rw [if_neg hcond] at hs ht
    exact ⟨bne_iff_ne.mp hne, fun _ => ⟨List.elem_iff.mp hs, List.elem_iff.mp ht⟩⟩

/-- C10 witness: under the medication filter, an edge between two
medication nodes survives with distinct endpoints both in the visible
set. -/
theorem claim_c10_witness :
    kEdge1 ∈ applyFilterEdges "medication" [kNode1, kNode2] [kEdge1] ∧
    (kEdge1.source ≠ kEdge1.target ∧
      ("medication" ≠ "all" →
        kEdge1.source ∈
          (([kNode1, kNode2].filter (fun n => n.type == "medication")).map (fun n => n.id)) ∧
        kEdge1.target ∈
          (([kNode1, kNode2].filter (fun n => n.type == "medication")).map (fun n => n.id)))) :=
  ⟨by decide, claim_c10_filtered_edges "medication" [kNode1, kNode2] [kEdge1] kEdge1
    (by decide)⟩

end Medrix
